import Mathlib

/-!
Verification of the embedded-pcf repository: a shallow embedding of the PCF
font container reader (`src/pcf.rs`, exposed as the crate's table-access
module), the byte codec helpers (`src/utils.rs`) and the text style renderer
(`src/style.rs`), together with theorems settling the specification claims.

The byte source (Rust `io::Read + io::Seek` over an in-memory buffer) is
modelled as a `List Nat` of byte values together with an explicit cursor
position; `read_exact` fails (Rust `io::Error`, mapped to `Error::Io`) when
the requested range runs past the end of the list, and `seek` always
succeeds, as it does on an in-memory cursor.  A Rust panic (out-of-bounds
slice index, the only panic source in the embedded code) is modelled by the
`none` case of an `Option` wrapper around the result.  Machine integers are
modelled as `Nat`/`Int` with explicit reduction modulo `2^16`, `2^32` or
`2^64` at the points where the Rust code performs fixed-width arithmetic.
-/

set_option maxRecDepth 100000

namespace EmbeddedPcf

instance {ε α : Type} [DecidableEq ε] [DecidableEq α] : DecidableEq (Except ε α) := fun x y =>
  match x, y with
  | .error a, .error b =>
    if h : a = b then .isTrue (by rw [h]) else .isFalse (fun hh => by cases hh; exact h rfl)
  | .ok a, .ok b =>
    if h : a = b then .isTrue (by rw [h]) else .isFalse (fun hh => by cases hh; exact h rfl)
  | .error _, .ok _ => .isFalse (fun hh => by cases hh)
  | .ok _, .error _ => .isFalse (fun hh => by cases hh)

/-- Reinterpret a `u16` bit pattern (a `Nat` below `2^16`) as an `i16`. -/
def toI16 (n : Nat) : Int :=
  if n < 32768 then (n : Int) else (n : Int) - 65536

/-- Reinterpret a `u32` bit pattern (a `Nat` below `2^32`) as an `i32`. -/
def toI32 (n : Nat) : Int :=
  if n < 2147483648 then (n : Int) else (n : Int) - 4294967296

/-- Wrap an integer to the `i16` range, as Rust release-mode `i16` arithmetic does. -/
def wrap16 (x : Int) : Int :=
  (x + 32768) % 65536 - 32768

/-- Rust `as u32` on a signed value: reduce the two's complement pattern mod `2^32`. -/
def u32cast (x : Int) : Nat :=
  (x % 4294967296).toNat

/-- Rust `as usize` (64-bit) on a signed value. -/
def usizeCast (x : Int) : Nat :=
  (x % 18446744073709551616).toNat

/-- Rust `u32::saturating_as::<i32>()` used for the whitespace advance. -/
def i32Saturate (w : Nat) : Int :=
  min (w : Int) 2147483647

/-- The slice `l[lo..lo+n]` of a byte buffer. -/
def listSlice (l : List Nat) (lo n : Nat) : List Nat :=
  (l.drop lo).take n

/-- `read_exact` of `n` bytes at absolute position `pos`: fails (Rust `io::Error`)
when the source is too short. -/
def readExactAt (d : List Nat) (pos n : Nat) : Option (List Nat) :=
  if pos + n ≤ d.length then some (listSlice d pos n) else none

/-- Overwrite `bytes.length` bytes of `buf` starting at index `s`
(the effect of `read_exact` into the slice `buf[s..s+len]`). -/
def writeSlice (buf : List Nat) (s : Nat) (bytes : List Nat) : List Nat :=
  buf.take s ++ bytes ++ buf.drop (s + bytes.length)

/-! ### Byte codec utilities (`src/utils.rs`)

Each function indexes the given slice exactly as the Rust source does; every
call site in the embedded code passes a buffer at least as long as the
indices used, so the `getD` default is never reached. -/

/-- `utils::u32_from_le_bytes_ref`. -/
def u32_from_le_bytes_ref (buf : List Nat) : Nat :=
  (buf.getD 0 0) ||| ((buf.getD 1 0) <<< 8) ||| ((buf.getD 2 0) <<< 16) |||
    ((buf.getD 3 0) <<< 24)

/-- `utils::u32_from_be_bytes_ref`. -/
def u32_from_be_bytes_ref (buf : List Nat) : Nat :=
  ((buf.getD 0 0) <<< 24) ||| ((buf.getD 1 0) <<< 16) ||| ((buf.getD 2 0) <<< 8) |||
    (buf.getD 3 0)

/-- `utils::i32_from_be_bytes_ref`. -/
def i32_from_be_bytes_ref (buf : List Nat) : Int :=
  toI32 (u32_from_be_bytes_ref buf)

/-- `utils::u16_from_be_bytes_ref`. -/
def u16_from_be_bytes_ref (buf : List Nat) : Nat :=
  (buf.getD 1 0) ||| ((buf.getD 0 0) <<< 8)

/-- `utils::i16_from_be_bytes_ref`. -/
def i16_from_be_bytes_ref (buf : List Nat) : Int :=
  toI16 (u16_from_be_bytes_ref buf)

/-- `u16::from_be_bytes` applied to a two-byte buffer (used in `get_glyph_index`). -/
def u16_from_be_bytes (buf : List Nat) : Nat :=
  ((buf.getD 0 0) <<< 8) ||| (buf.getD 1 0)

/-- `u32::from_be_bytes` applied to a four-byte buffer (used in `get_glyph_bitmap_offset`). -/
def u32_from_be_bytes (buf : List Nat) : Nat :=
  ((buf.getD 0 0) <<< 24) ||| ((buf.getD 1 0) <<< 16) ||| ((buf.getD 2 0) <<< 8) |||
    (buf.getD 3 0)

/-! ### Core data model (`src/pcf.rs`) -/

/-- `pcf::Error`. -/
inductive Error where
  | UnsupportedFormat
  | CorruptedData
  | NotFound
  | Io
  | Other
deriving DecidableEq, Repr

/-- `pcf::GlyphPaddingFormat`: how glyph bitmap rows are padded. -/
inductive GlyphPaddingFormat where
  | Byte
  | Short
  | Int
deriving DecidableEq, Repr

/-- `num_enum::FromPrimitive` for `GlyphPaddingFormat` (default `Byte`). -/
def GlyphPaddingFormat.fromPrimitive (n : Nat) : GlyphPaddingFormat :=
  match n with
  | 1 => .Short
  | 2 => .Int
  | _ => .Byte

/-- `pcf::TableTocEntry` (the `u32` fields as `Nat`). -/
structure TableTocEntry where
  format : Nat
  size : Nat
  offset : Nat
deriving DecidableEq, Repr

/-- `pcf::MetricsEntry`: decoded per-glyph metrics (`i16` fields as `Int`,
the `u16` attributes as `Nat`). -/
structure MetricsEntry where
  left_side_bearing : Int
  right_side_bearing : Int
  character_width : Int
  character_ascent : Int
  character_descent : Int
  character_attributes : Nat
deriving DecidableEq, Repr

/-- `MetricsEntry::new_from_compressed`: each of the 5 raw bytes biased by `0x80`.
The indexing `data[0]` .. `data[4]` panics (`none`) when the slice is shorter
than 5 bytes. -/
def MetricsEntry.new_from_compressed (data : List Nat) : Option MetricsEntry :=
  if data.length < 5 then none
  else some
    { left_side_bearing := (data.getD 0 0 : Int) - 0x80
      right_side_bearing := (data.getD 1 0 : Int) - 0x80
      character_width := (data.getD 2 0 : Int) - 0x80
      character_ascent := (data.getD 3 0 : Int) - 0x80
      character_descent := (data.getD 4 0 : Int) - 0x80
      character_attributes := 0 }

/-- `MetricsEntry::new_from_standard`: decodes the six fields from the inclusive
slices `data[0..=2]`, `data[2..=4]`, `data[4..=6]`, `data[6..=8]`, `data[8..=10]`
and `data[10..=12]`.  Creating the slice `data[10..=12]` requires index 12 to be
in bounds, so the decode panics (`none`) whenever the slice holds fewer than
13 bytes — in particular on an exactly-12-byte buffer. -/
def MetricsEntry.new_from_standard (data : List Nat) : Option MetricsEntry :=
  if data.length < 13 then none
  else some
    { left_side_bearing := i16_from_be_bytes_ref (listSlice data 0 3)
      right_side_bearing := i16_from_be_bytes_ref (listSlice data 2 3)
      character_width := i16_from_be_bytes_ref (listSlice data 4 3)
      character_ascent := i16_from_be_bytes_ref (listSlice data 6 3)
      character_descent := i16_from_be_bytes_ref (listSlice data 8 3)
      character_attributes := u16_from_be_bytes_ref (listSlice data 10 3) }

/-- The `usize` wrap modulus `2^64`. -/
def usizeMod : Nat := 18446744073709551616

/-- `pcf::bytes_per_row`: the length of each row in bytes.  The source
computes in `usize`: the multiplication `bytes_align * 8`, the addition
`width + unit_align_bits`, the subtraction of 1 and the final
multiplication `block_count * bytes_align` all wrap modulo `2^64` (release
profile; a debug build panics at exactly the inputs where a wrap occurs).
The division cannot wrap (and, like the source, is only ever called with a
nonzero alignment). -/
def bytes_per_row (width bytes_align : Nat) : Nat :=
  ((width + bytes_align * 8 % usizeMod) % usizeMod + usizeMod - 1) % usizeMod
    / (bytes_align * 8 % usizeMod) * bytes_align % usizeMod

/-- The `match` on the padding format in `read_glyph_raw` selecting the
source row width. -/
def sourceRowBytes (fmt : GlyphPaddingFormat) (width : Nat) : Nat :=
  match fmt with
  | .Byte => bytes_per_row width 1
  | .Short => bytes_per_row width 2
  | .Int => bytes_per_row width 4

/-- `pcf::PcfFont`: the opened font handle.  The owned byte source (`data`
field) is passed separately to each reading function as a `List Nat`. -/
structure PcfFont where
  glyph_count : Nat
  ascent : Int
  descent : Int
  metrics_compressed : Bool
  bounding_box : Int × Int × Int × Int
  glyph_row_padding_format : GlyphPaddingFormat
  min_char_or_byte2 : Nat
  max_char_or_byte2 : Nat
  min_byte1 : Nat
  max_byte1 : Nat
  default_char : Nat
  encoded_glyph_indices_location : Nat
  bitmap_position_lut_location : Nat
  bitmap_data_location : Nat
  metrics_data_location : Nat
deriving DecidableEq, Repr

/-! ### Glyph lookup and metrics reading (`impl PcfFont`) -/

/-- `enc1`: high byte of the code point. -/
def enc1 (code_point : Nat) : Nat := (code_point >>> 8) &&& 0xFF

/-- `enc2`: low byte of the code point. -/
def enc2 (code_point : Nat) : Nat := code_point &&& 0xFF

/-- The two range checks of `get_glyph_index` against the encoding domain. -/
def inEncodingDomain (f : PcfFont) (code_point : Nat) : Prop :=
  (f.min_byte1 ≤ enc1 code_point ∧ enc1 code_point ≤ f.max_byte1) ∧
    (f.min_char_or_byte2 ≤ enc2 code_point ∧ enc2 code_point ≤ f.max_char_or_byte2)

instance (f : PcfFont) (code_point : Nat) : Decidable (inEncodingDomain f code_point) := by
  unfold inEncodingDomain; infer_instance

/-- `indice_offset` in `get_glyph_index`: the row-major index into the encoded
glyph index table, computed in `u16` arithmetic. -/
def rowMajorIndex (f : PcfFont) (code_point : Nat) : Nat :=
  ((enc1 code_point - f.min_byte1) * ((f.max_char_or_byte2 - f.min_char_or_byte2 + 1) % 65536)
      + (enc2 code_point - f.min_char_or_byte2)) % 65536

/-- `PcfFont::get_glyph_index`: map a 16-bit code point to a glyph index via
the encoding table. -/
def get_glyph_index (f : PcfFont) (src : List Nat) (code_point : Nat) : Except Error Nat :=
  if ¬(f.min_byte1 ≤ enc1 code_point ∧ enc1 code_point ≤ f.max_byte1) ∨
      ¬(f.min_char_or_byte2 ≤ enc2 code_point ∧ enc2 code_point ≤ f.max_char_or_byte2) then
    .error .NotFound
  else
    match readExactAt src
        ((f.encoded_glyph_indices_location + rowMajorIndex f code_point * 2) % 4294967296) 2 with
    | none => .error .Io
    | some buffer =>
      let glyph_index := u16_from_be_bytes buffer
      if glyph_index = 0xFFFF then .error .NotFound else .ok glyph_index

/-- `PcfFont::get_glyph_bitmap_offset`. -/
def get_glyph_bitmap_offset (f : PcfFont) (src : List Nat) (glyph_index : Nat) :
    Except Error Nat :=
  match readExactAt src ((f.bitmap_position_lut_location + glyph_index * 4) % 4294967296) 4 with
  | none => .error .Io
  | some buffer => .ok (u32_from_be_bytes buffer)

/-- `PcfFont::get_metrics_compressed`: read a 5-byte buffer and decode it.
`none` models a panic inside the decode (unreachable here: the buffer has
exactly 5 bytes). -/
def get_metrics_compressed (src : List Nat) (cursor_offset : Nat) :
    Option (Except Error MetricsEntry) :=
  match readExactAt src cursor_offset 5 with
  | none => some (.error .Io)
  | some buffer =>
    match MetricsEntry.new_from_compressed buffer with
    | none => none
    | some m => some (.ok m)

/-- `PcfFont::get_metrics_standard`: read a 12-byte buffer and decode it with
`new_from_standard`.  `none` models the out-of-bounds panic of the decode. -/
def get_metrics_standard (src : List Nat) (cursor_offset : Nat) :
    Option (Except Error MetricsEntry) :=
  match readExactAt src cursor_offset 12 with
  | none => some (.error .Io)
  | some buffer =>
    match MetricsEntry.new_from_standard buffer with
    | none => none
    | some m => some (.ok m)

/-- `PcfFont::get_metrics`: dispatch on the compression flag; the cursor offset
is computed in `u32` arithmetic. -/
def get_metrics (f : PcfFont) (src : List Nat) (glyph_index : Nat) :
    Option (Except Error MetricsEntry) :=
  if f.metrics_compressed then
    get_metrics_compressed src ((f.metrics_data_location + glyph_index * 5) % 4294967296)
  else
    get_metrics_standard src ((f.metrics_data_location + glyph_index * 12) % 4294967296)

/-- The row loop of `read_glyph_raw`: for each remaining row (counted by the
third `Nat` argument, with `r` the current row number), slice the caller's
buffer at `r * std` (panic, `none`, if out of bounds), `read_exact` `std`
bytes into it, then skip `skip` padding bytes.  Returns the final buffer and
cursor position. -/
def readRows (src : List Nat) (std skip : Nat) :
    Nat → Nat → Nat → List Nat → Option (Except Error (List Nat × Nat))
  | _, 0, pos, buf => some (.ok (buf, pos))
  | r, n + 1, pos, buf =>
    if r * std + std ≤ buf.length then
      match readExactAt src pos std with
      | none => some (.error .Io)
      | some bytes => readRows src std skip (r + 1) n (pos + std + skip) (writeSlice buf (r * std) bytes)
    else none

/-- `PcfFont::read_glyph_raw`: read the raw glyph data of `code_point` into
`buf`, returning `(length, width)` together with the updated buffer. -/
def read_glyph_raw (f : PcfFont) (src : List Nat) (code_point : Nat) (buf : List Nat) :
    Option (Except Error ((Nat × Nat) × List Nat)) :=
  match get_glyph_index f src code_point with
  | .error e => some (.error e)
  | .ok glyph_index =>
    match get_glyph_bitmap_offset f src glyph_index with
    | .error e => some (.error e)
    | .ok bitmap_offset =>
      match get_metrics f src glyph_index with
      | none => none
      | some (.error e) => some (.error e)
      | some (.ok metrics) =>
        let glyph_width :=
          usizeCast (wrap16 (metrics.right_side_bearing - metrics.left_side_bearing))
        let glyph_height :=
          usizeCast (wrap16 (metrics.character_ascent + metrics.character_descent))
        let original_row_bytes := sourceRowBytes f.glyph_row_padding_format glyph_width
        let standard_row_bytes := bytes_per_row glyph_width 1
        let start := (f.bitmap_data_location + bitmap_offset) % 4294967296
        let skip_count := original_row_bytes - standard_row_bytes
        match readRows src standard_row_bytes skip_count 0 glyph_height start buf with
        | none => none
        | some (.error e) => some (.error e)
        | some (.ok (buf2, _)) => some (.ok ((glyph_height * standard_row_bytes, glyph_width), buf2))

/-! ### Font container loading (`pcf::load_pcf_font`) -/

/-- The fixed 4-byte magic signature checked by `load_pcf_font`. -/
def magicBytes : List Nat := [0x01, 0x66, 0x63, 0x70]

/-- The five retained table-of-contents slots
(`table_toc[0..5]`: bitmaps, metrics, BDF encodings, BDF accelerators, accelerators). -/
structure TocSel where
  bitmaps : Option TableTocEntry
  metrics : Option TableTocEntry
  encodings : Option TableTocEntry
  bdfAccel : Option TableTocEntry
  accel : Option TableTocEntry
deriving DecidableEq, Repr

/-- The empty table of contents selection. -/
def emptyToc : TocSel := ⟨none, none, none, none, none⟩

/-- The `match TableType::from_primitive(table_type)` arm of the toc loop:
`Bitmaps = 8`, `Metrics = 4`, `BdfEncodings = 32`, `BdfAccelerators = 256`,
`Accelerators = 2`; every other type value is discarded. -/
def classifyTable (table_type : Nat) (e : TableTocEntry) (acc : TocSel) : TocSel :=
  match table_type with
  | 8 => { acc with bitmaps := some e }
  | 4 => { acc with metrics := some e }
  | 32 => { acc with encodings := some e }
  | 256 => { acc with bdfAccel := some e }
  | 2 => { acc with accel := some e }
  | _ => acc

/-- The toc-reading loop of `load_pcf_font`: read `n` 16-byte records starting
at `pos`, all fields little-endian. -/
def readTocEntries (d : List Nat) : Nat → Nat → TocSel → Except Error TocSel
  | _, 0, acc => .ok acc
  | pos, n + 1, acc =>
    match readExactAt d pos 16 with
    | none => .error .Io
    | some buffer =>
      let table_type := u32_from_le_bytes_ref (listSlice buffer 0 4)
      let e : TableTocEntry :=
        { format := u32_from_le_bytes_ref (listSlice buffer 4 4)
          size := u32_from_le_bytes_ref (listSlice buffer 8 4)
          offset := u32_from_le_bytes_ref (listSlice buffer 12 4) }
      readTocEntries d (pos + 16) n (classifyTable table_type e acc)

/-- The verification loop over `table_toc[..4]`: a missing table is
`CorruptedData`; a format without both `PCF_BYTE_MASK` and `PCF_BIT_MASK`
(`0xC`) is `UnsupportedFormat`. -/
def checkTocFormats : List (Option TableTocEntry) → Except Error Unit
  | [] => .ok ()
  | none :: _ => .error .CorruptedData
  | some e :: rest =>
    if e.format &&& 12 ≠ 12 then .error .UnsupportedFormat else checkTocFormats rest

/-- The header / table-of-contents phase of `load_pcf_font`: magic check,
toc reading, `BdfAccelerators`-to-`Accelerators` substitution and the
per-table verification; yields the four required table entries. -/
def loadTocChecked (d : List Nat) :
    Except Error (TableTocEntry × TableTocEntry × TableTocEntry × TableTocEntry) :=
  match readExactAt d 0 4 with
  | none => .error .Io
  | some magic =>
    if magic ≠ magicBytes then .error .UnsupportedFormat
    else
      match readExactAt d 4 4 with
      | none => .error .Io
      | some cb =>
        match readTocEntries d 8 (u32_from_le_bytes_ref cb) emptyToc with
        | .error e => .error e
        | .ok toc =>
          let t3 := match toc.bdfAccel with
            | some e => some e
            | none => toc.accel
          match checkTocFormats [toc.bitmaps, toc.metrics, toc.encodings, t3] with
          | .error e => .error e
          | .ok _ =>
            match toc.bitmaps, toc.metrics, toc.encodings, t3 with
            | some a, some b, some c, some e => .ok (a, b, c, e)
            -- unreachable: checkTocFormats already rejected any missing table
            | _, _, _, _ => .error .CorruptedData

/-- The bitmap-table format checks of `load_pcf_font`: the scan-unit field
(`PCF_SCAN_UNIT_MASK = 0x30`) must be zero, and the glyph padding field
(`PCF_GLYPH_PAD_MASK = 3`) must not be the reserved value 3. -/
def bitmapPadFormat (t0 : TableTocEntry) : Except Error GlyphPaddingFormat :=
  if t0.format &&& 48 ≠ 0 then .error .UnsupportedFormat
  else if t0.format &&& 3 = 3 then .error .CorruptedData
  else .ok (GlyphPaddingFormat.fromPrimitive (t0.format &&& 3))

/-- The bitmaps-table phase of `load_pcf_font`: read the big-endian glyph
count just after the format field, then skip the per-glyph offsets array and
read the 12 `bitmapSizes` bytes (whose values are unused, but whose read must
succeed). -/
def readGlyphCountStage (d : List Nat) (t0 : TableTocEntry) : Except Error Nat :=
  match readExactAt d (t0.offset + 4) 4 with
  | none => .error .Io
  | some buffer =>
    let glyph_count := u32_from_be_bytes_ref buffer
    match readExactAt d (t0.offset + 8 + glyph_count * 4) 12 with
    | none => .error .Io
    | some _ => .ok glyph_count

/-- The metrics-table phase of `load_pcf_font`: read 8 bytes at the table
offset, derive the compression flag from the toc format field
(`PCF_COMPRESSED_METRICS = 0x100`), and decode the metrics count as a
big-endian `u16` (compressed) or `u32` (standard). -/
def readMetricsCountStage (d : List Nat) (t1 : TableTocEntry) : Except Error (Bool × Nat) :=
  match readExactAt d t1.offset 8 with
  | none => .error .Io
  | some buffer =>
    let metrics_compressed : Bool := t1.format &&& 256 != 0
    let metrics_count :=
      if metrics_compressed then u16_from_be_bytes_ref (listSlice buffer 4 2)
      else u32_from_be_bytes_ref (listSlice buffer 4 4)
    .ok (metrics_compressed, metrics_count)

/-- `pcf::load_pcf_font`: check and load a PCF font from the byte source.
The `none` case models a Rust panic (never reached: the two
`new_from_standard` calls receive the full 16-byte scratch buffer, modelled
by appending the four stale bytes `[0,0,0,0]` the Rust code leaves there). -/
def load_pcf_font (d : List Nat) : Option (Except Error PcfFont) :=
  match loadTocChecked d with
  | .error e => some (.error e)
  | .ok (t0, t1, t2, t3) =>
    match bitmapPadFormat t0 with
    | .error e => some (.error e)
    | .ok glyph_row_padding_format =>
      match readGlyphCountStage d t0 with
      | .error e => some (.error e)
      | .ok glyph_count =>
        match readMetricsCountStage d t1 with
        | .error e => some (.error e)
        | .ok (metrics_compressed, metrics_count) =>
          if metrics_count ≠ glyph_count then some (.error .CorruptedData)
          else
            match readExactAt d (t2.offset + 4) 10 with
            | none => some (.error .Io)
            | some eb =>
              let min_char_or_byte2 := u16_from_be_bytes_ref (listSlice eb 0 2)
              let max_char_or_byte2 := u16_from_be_bytes_ref (listSlice eb 2 2)
              let min_byte1 := u16_from_be_bytes_ref (listSlice eb 4 2)
              let max_byte1 := u16_from_be_bytes_ref (listSlice eb 6 2)
              -- the source rereads bytes 6..8 here instead of bytes 8..10
              let default_char := u16_from_be_bytes_ref (listSlice eb 6 2)
              match readExactAt d (t3.offset + 12) 8 with
              | none => some (.error .Io)
              | some ab =>
                let ascent := i32_from_be_bytes_ref (listSlice ab 0 4)
                let descent := i32_from_be_bytes_ref (listSlice ab 4 4)
                -- skip `maxOverlap` (4 bytes), then optionally the 24 ink-bound bytes
                let q := t3.offset + 24 + (if t3.format &&& 256 ≠ 0 then 24 else 0)
                match readExactAt d q 12 with
                | none => some (.error .Io)
                | some mb =>
                  match MetricsEntry.new_from_standard (mb ++ [0, 0, 0, 0]) with
                  | none => none
                  | some minbounds =>
                    match readExactAt d (q + 12) 12 with
                    | none => some (.error .Io)
                    | some xb =>
                      match MetricsEntry.new_from_standard (xb ++ [0, 0, 0, 0]) with
                      | none => none
                      | some maxbounds =>
                        let bounding_box :=
                          (wrap16 (maxbounds.right_side_bearing - minbounds.left_side_bearing),
                            wrap16 (maxbounds.character_ascent + maxbounds.character_descent),
                            minbounds.left_side_bearing,
                            wrap16 (-maxbounds.character_descent))
                        let bitmap_position_lut_location := (t0.offset + 4 + 4) % 4294967296
                        let bitmap_data_location :=
                          (bitmap_position_lut_location + (glyph_count + 4) * 4) % 4294967296
                        let metrics_data_location :=
                          (t1.offset + 4 + (if metrics_compressed then 2 else 4)) % 4294967296
                        let encoded_glyph_indices_location := (t2.offset + 4 + 5 * 2) % 4294967296
                        some (.ok
                          { glyph_count := glyph_count
                            ascent := ascent
                            descent := descent
                            metrics_compressed := metrics_compressed
                            bounding_box := bounding_box
                            glyph_row_padding_format := glyph_row_padding_format
                            min_char_or_byte2 := min_char_or_byte2
                            max_char_or_byte2 := max_char_or_byte2
                            min_byte1 := min_byte1
                            max_byte1 := max_byte1
                            default_char := default_char
                            encoded_glyph_indices_location := encoded_glyph_indices_location
                            bitmap_position_lut_location := bitmap_position_lut_location
                            bitmap_data_location := bitmap_data_location
                            metrics_data_location := metrics_data_location })

/-! ### Text style renderer (`src/style.rs`)

The drawing functions are embedded against a pure model of the draw target:
instead of mutating a pixel surface they return the list of drawing
operations performed (glyph blits and rectangle fills), so a successful draw
always returns.  The crate's table-access module referenced by `style.rs`
(`crate::parser`) is not among the sources; the pieces of it that `style.rs`
uses are modelled from the spec below. -/

/-- `embedded_graphics::prelude::Point` (`i32` coordinates as `Int`). -/
structure Point where
  x : Int
  y : Int
deriving DecidableEq, Repr

/-- A rectangle: top-left corner plus `u32` size. -/
structure Rect where
  top_left : Point
  width : Nat
  height : Nat
deriving DecidableEq, Repr

/-- `embedded_graphics::text::Baseline`. -/
inductive Baseline where
  | Top
  | Bottom
  | Middle
  | Alphabetic
deriving DecidableEq, Repr

/-- `embedded_graphics::text::DecorationColor`. -/
inductive DecorationColor (C : Type) where
  | NoColor
  | Custom (c : C)
  | TextColor
deriving DecidableEq, Repr

/-- Modelled from the spec: the opened font handle's overall bounding box as
the style renderer reads it (`font.bounding_box.width/height/max_ascent/max_descent`);
the module that stores it (`mod parser` in `lib.rs`) is not among the sources.
Per the spec the stored values are 16-bit signed quantities derived from the
accelerator table's min/max metrics bounds. -/
structure FontBoundingBox where
  width : Int
  height : Int
  max_ascent : Int
  max_descent : Int
deriving DecidableEq, Repr

/-- Modelled from the spec: the interface of the opened font handle used by
the style renderer (`mod parser` is not among the sources).  `read_glyph_raw`
decodes a code point to the glyph's canonical byte-packed bitmap data and its
metrics entry, `get_glyph_metrics` to the metrics entry only; both follow
the spec's per-glyph lookup/decode pipeline and may fail with any `Error`. -/
structure FontHandleModel where
  bounding_box : FontBoundingBox
  default_char : Nat
  read_glyph_raw : Nat → Except Error (List Nat × MetricsEntry)
  get_glyph_metrics : Nat → Except Error MetricsEntry

/-- `pcf::PcfFontStyle`: renderer state over a font handle. -/
structure PcfFontStyle (C : Type) where
  text_color : Option C
  background_color : Option C
  underline_color : DecorationColor C
  strikethrough_color : DecorationColor C
  font : FontHandleModel

/-- One drawing operation of the binary (glyph) layer: a glyph bitmap blit at
a point, or a solid rectangle fill with an on/off binary color. -/
inductive BinOp where
  | glyph (data : List Nat) (m : MetricsEntry) (pos : Point)
  | fill (r : Rect) (isOn : Bool)
deriving DecidableEq, Repr

/-- `PcfFontStyle::baseline_offset`: the glyph drawing offset for the
configured baseline.  The additions around `max_descent` and `height / 2` are
16-bit arithmetic in the source (the bounding box fields are 16-bit), and the
division is Rust's truncating signed division. -/
def baseline_offset (bb : FontBoundingBox) (baseline : Baseline) : Int :=
  match baseline with
  | .Top => bb.max_ascent
  | .Bottom => wrap16 (1 + bb.max_descent)
  | .Middle => wrap16 (1 + bb.height.tdiv 2 + bb.max_descent)
  | .Alphabetic => 1

/-- `PcfFontStyle::draw_single_char_binary`: blit the glyph image offset by
`(left_side_bearing, -character_ascent)` from the pen position, but only when
the glyph has data. -/
def draw_single_char_binary (glyph_data : List Nat) (metrics : MetricsEntry) (position : Point) :
    List BinOp :=
  if 0 < glyph_data.length then
    [.glyph glyph_data metrics
      ⟨position.x + metrics.left_side_bearing, position.y + -metrics.character_ascent⟩]
  else []

/-- The per-character advance used by `text_bbox` and the measuring branch of
`draw_string`: `character_width as u32`, with the font's bounding box width
as the fallback for unresolved code points. -/
def charAdvanceU32 (F : FontHandleModel) (c : Nat) : Nat :=
  match F.get_glyph_metrics c with
  | .ok metrics => u32cast metrics.character_width
  | .error _ => u32cast F.bounding_box.width

/-- Sum of per-character advances in `u32` arithmetic. -/
def widthSumU32 (F : FontHandleModel) (chars : List Nat) : Nat :=
  (chars.map (charAdvanceU32 F)).foldl (fun acc a => (acc + a) % 4294967296) 0

/-- `PcfFontStyle::text_bbox`: the background rectangle of a string. -/
def text_bbox (F : FontHandleModel) (chars : List Nat) (position : Point) : Option Rect :=
  match chars with
  | [] => none
  | _ =>
    some
      { top_left := ⟨position.x + 0, position.y + -F.bounding_box.max_ascent⟩
        width := widthSumU32 F chars
        height := u32cast F.bounding_box.height }

/-- `PcfFontStyle::fill_string_background`: batch-fill the background box
with the off color when a background color is configured. -/
def fill_string_background {C : Type} (style : PcfFontStyle C) (chars : List Nat)
    (position : Point) : List BinOp :=
  if style.background_color.isSome then
    match text_bbox style.font chars position with
    | some bbox => [.fill bbox false]
    | none => []
  else []

/-- The character loop of `draw_string_binary` (`style.rs` lines 211-235):
decode each character's glyph; on `NotFound` retry once with the handle's
default character; on any other failure (of the character or of the
fallback) treat the character as zero-width and continue with the rest. -/
def drawCharsLoop (F : FontHandleModel) : List Nat → Point → Point × List BinOp
  | [], position => (position, [])
  | c :: rest, position =>
    match F.read_glyph_raw c with
    | .ok (data, metrics) =>
      let ops := draw_single_char_binary data metrics position
      let next := drawCharsLoop F rest ⟨position.x + metrics.character_width, position.y⟩
      (next.1, ops ++ next.2)
    | .error .NotFound =>
      match F.read_glyph_raw F.default_char with
      | .ok (data, metrics) =>
        let ops := draw_single_char_binary data metrics position
        let next := drawCharsLoop F rest ⟨position.x + metrics.character_width, position.y⟩
        (next.1, ops ++ next.2)
      | .error _ => drawCharsLoop F rest position
    | .error _ => drawCharsLoop F rest position

/-- `PcfFontStyle::draw_string_binary`: background prefill followed by the
character loop. -/
def draw_string_binary {C : Type} (style : PcfFontStyle C) (chars : List Nat)
    (position : Point) : Point × List BinOp :=
  let pre := fill_string_background style chars position
  let next := drawCharsLoop style.font chars position
  (next.1, pre ++ next.2)

/-- The decoration color resolution of `draw_decorations`. -/
def resolveDecorationColor {C : Type} (d : DecorationColor C) (text_color : Option C) :
    Option C :=
  match d with
  | .NoColor => none
  | .Custom c => some c
  | .TextColor => text_color

/-- `PcfFontStyle::draw_decorations`: strikethrough at the `Middle` baseline
offset and underline at the `Bottom` baseline offset, each a 1-pixel-tall
rectangle across `width`. -/
def draw_decorations {C : Type} (style : PcfFontStyle C) (width : Nat) (position : Point) :
    List (Rect × C) :=
  let strike :=
    match resolveDecorationColor style.strikethrough_color style.text_color with
    | some color =>
      [({ top_left := ⟨position.x + 0, position.y + -baseline_offset style.font.bounding_box .Middle⟩
          width := width, height := 1 }, color)]
    | none => []
  let under :=
    match resolveDecorationColor style.underline_color style.text_color with
    | some color =>
      [({ top_left := ⟨position.x + 0, position.y + -baseline_offset style.font.bounding_box .Bottom⟩
          width := width, height := 1 }, color)]
    | none => []
  strike ++ under

/-- `<PcfFontStyle as TextRenderer>::draw_string`: apply the baseline offset,
dispatch on the configured colors (any color set draws through the binary
layer; neither set only measures), draw decorations over the advanced width
and restore the baseline offset on the returned pen position. -/
def draw_string {C : Type} (style : PcfFontStyle C) (chars : List Nat) (position : Point)
    (baseline : Baseline) : Point × List BinOp × List (Rect × C) :=
  let posB : Point := ⟨position.x + 0, position.y + baseline_offset style.font.bounding_box baseline⟩
  let step : Point × List BinOp :=
    match style.text_color, style.background_color with
    | some _, some _ => draw_string_binary style chars posB
    | some _, none => draw_string_binary style chars posB
    | none, some _ => draw_string_binary style chars posB
    | none, none => (⟨posB.x + (widthSumU32 style.font chars : Int), posB.y + 0⟩, [])
  let next := step.1
  let decorations :=
    if posB.x < next.x then draw_decorations style (u32cast (next.x - posB.x)) posB else []
  (⟨next.x - 0, next.y - baseline_offset style.font.bounding_box baseline⟩, step.2, decorations)

/-- `<PcfFontStyle as TextRenderer>::draw_whitespace`: background-fill a
`width × height` box at the adjusted position, draw decorations, undo the
vertical adjustments and advance the pen horizontally by the saturated
width. -/
def draw_whitespace {C : Type} (style : PcfFontStyle C) (width : Nat) (position : Point)
    (baseline : Baseline) : Point × List (Rect × C) :=
  if width ≠ 0 then
    let bb := style.font.bounding_box
    let max_ascent := wrap16 (bb.height + bb.max_descent)
    let p1 : Point := ⟨position.x, position.y + (baseline_offset bb baseline - max_ascent)⟩
    let fills : List (Rect × C) :=
      match style.background_color with
      | some color => [({ top_left := p1, width := width, height := u32cast bb.height }, color)]
      | none => []
    let p2 : Point := ⟨p1.x, p1.y + max_ascent⟩
    let decorations := draw_decorations style width p2
    let p3 : Point := ⟨p2.x, p2.y - baseline_offset bb baseline⟩
    let p4 : Point := ⟨p3.x + i32Saturate width, p3.y⟩
    (p4, fills ++ decorations)
  else (position, [])

/-! ### Concrete test containers

A minimal well-formed PCF container (`testFontC1`) with four tables
(bitmaps, metrics, encodings, accelerators), one glyph, compressed metrics,
byte row padding, an encoding domain of the single code point `0x41`, and an
encoding-table default-character field of `0x3F`; and two corrupted variants
of it. -/

/-- A minimal well-formed PCF container, 171 bytes. -/
def testFontC1 : List Nat :=
  -- magic, table count = 4 (LE)
  [0x01, 0x66, 0x63, 0x70, 4, 0, 0, 0,
   -- toc: Bitmaps (type 8), format 0xC, size 0, offset 72
   8, 0, 0, 0, 12, 0, 0, 0, 0, 0, 0, 0, 72, 0, 0, 0,
   -- toc: Metrics (type 4), format 0x10C (compressed), size 0, offset 96
   4, 0, 0, 0, 0x0C, 0x01, 0, 0, 0, 0, 0, 0, 96, 0, 0, 0,
   -- toc: BdfEncodings (type 32), format 0xC, size 0, offset 107
   32, 0, 0, 0, 12, 0, 0, 0, 0, 0, 0, 0, 107, 0, 0, 0,
   -- toc: Accelerators (type 2), format 0xC, size 0, offset 123
   2, 0, 0, 0, 12, 0, 0, 0, 0, 0, 0, 0, 123, 0, 0, 0,
   -- bitmaps table (72): format, glyph count = 1 (BE), offsets[0] = 0, bitmapSizes
   0, 0, 0, 0, 0, 0, 0, 1, 0, 0, 0, 0, 0, 0, 0, 0, 0, 0, 0, 0, 0, 0, 0, 0,
   -- metrics table (96): format, count = 1 (BE u16), glyph 0 compressed metrics
   0, 0, 0, 0, 0, 1, 0x80, 0x88, 0x88, 0x88, 0x80,
   -- encodings table (107): format, min/max char2 = 0x41, min/max byte1 = 0,
   -- default char = 0x3F, glyph index for 0x41 = 0
   0, 0, 0, 0, 0, 0x41, 0, 0x41, 0, 0, 0, 0, 0, 0x3F, 0, 0,
   -- accelerators table (123): format + 8 meta bytes, ascent = 8, descent = 0,
   -- maxOverlap, minbounds, maxbounds
   0, 0, 0, 0, 0, 0, 0, 0, 0, 0, 0, 0,
   0, 0, 0, 8, 0, 0, 0, 0, 0, 0, 0, 0,
   0, 0, 0, 8, 0, 8, 0, 8, 0, 0, 0, 0,
   0, 0, 0, 8, 0, 8, 0, 8, 0, 0, 0, 0]

/-- The font handle `load_pcf_font` produces from `testFontC1`. -/
def testFontC1Handle : PcfFont :=
  { glyph_count := 1
    ascent := 8
    descent := 0
    metrics_compressed := true
    bounding_box := (8, 8, 0, 0)
    glyph_row_padding_format := .Byte
    min_char_or_byte2 := 0x41
    max_char_or_byte2 := 0x41
    min_byte1 := 0
    max_byte1 := 0
    default_char := 0
    encoded_glyph_indices_location := 121
    bitmap_position_lut_location := 80
    bitmap_data_location := 100
    metrics_data_location := 102 }

/-- `testFontC1` with the metrics count changed to 2, mismatching the glyph
count of 1. -/
def testFontBadCount : List Nat :=
  testFontC1.set 101 2

/-- A byte source whose first four bytes are not the magic signature. -/
def testBadMagic : List Nat := [0, 0, 0, 0]

/-! ### Helper lemmas -/

lemma readExactAt_length {d : List Nat} {pos n : Nat} {b : List Nat}
    (h : readExactAt d pos n = some b) : b.length = n := by
  unfold readExactAt at h
  split at h
  · cases h
    simp only [listSlice, List.length_take, List.length_drop]
    omega
  · cases h

lemma readExactAt_bound {d : List Nat} {pos n : Nat} {b : List Nat}
    (h : readExactAt d pos n = some b) : pos + n ≤ d.length := by
  unfold readExactAt at h
  split at h
  · assumption
  · cases h

lemma readExactAt_getD {d : List Nat} {pos n : Nat} {b : List Nat}
    (h : readExactAt d pos n = some b) {j : Nat} (hj : j < n) :
    b.getD j 0 = d.getD (pos + j) 0 := by
  unfold readExactAt at h
  split at h
  · cases h
    simp [listSlice, List.getD_eq_getElem?_getD, List.getElem?_take_of_lt hj,
      List.getElem?_drop]
  · cases h

lemma readExactAt_mem {d : List Nat} {pos n : Nat} {b : List Nat}
    (h : readExactAt d pos n = some b) {x : Nat} (hx : x ∈ b) : x ∈ d := by
  unfold readExactAt at h
  split at h
  · cases h
    exact List.drop_subset pos d (List.take_subset n _ hx)
  · cases h

lemma writeSlice_length {buf bytes : List Nat} {s : Nat}
    (h : s + bytes.length ≤ buf.length) :
    (writeSlice buf s bytes).length = buf.length := by
  simp only [writeSlice, List.length_append, List.length_take, List.length_drop]
  omega

lemma writeSlice_getD_left {buf bytes : List Nat} {s k : Nat}
    (hk : k < s) (hs : s ≤ buf.length) :
    (writeSlice buf s bytes).getD k 0 = buf.getD k 0 := by
  have h1 : k < (buf.take s).length := by
    simp only [List.length_take]; omega
  simp only [writeSlice, List.append_assoc, List.getD_eq_getElem?_getD,
    List.getElem?_append, h1, if_pos, List.getElem?_take_of_lt hk]

lemma writeSlice_getD_mid {buf bytes : List Nat} {s j : Nat}
    (hj : j < bytes.length) (h : s + bytes.length ≤ buf.length) :
    (writeSlice buf s bytes).getD (s + j) 0 = bytes.getD j 0 := by
  have hs : s ≤ buf.length := by omega
  have h1 : (buf.take s).length = s := by
    simp only [List.length_take]; omega
  have h2 : ¬(s + j < (buf.take s).length) := by omega
  have h3 : s + j - (buf.take s).length = j := by omega
  simp only [writeSlice, List.append_assoc, List.getD_eq_getElem?_getD,
    List.getElem?_append, h2, if_neg, h3, hj, if_pos, not_false_eq_true]

lemma wrap16_eq_self {x : Int} (h1 : -32768 ≤ x) (h2 : x < 32768) : wrap16 x = x := by
  unfold wrap16
  rw [Int.emod_eq_of_lt (by omega) (by omega)]
  omega

lemma usizeCast_eq_toNat {x : Int} (h1 : 0 ≤ x) (h2 : x < 18446744073709551616) :
    usizeCast x = x.toNat := by
  unfold usizeCast
  rw [Int.emod_eq_of_lt h1 h2]

lemma bytes_per_row_one_eq {width : Nat} (hw : width + 8 ≤ usizeMod) :
    bytes_per_row width 1 = (width + 7) / 8 := by
  unfold bytes_per_row usizeMod at *
  norm_num
  omega

lemma bytes_per_row_two_eq {width : Nat} (hw : width + 16 ≤ usizeMod) :
    bytes_per_row width 2 = (width + 15) / 16 * 2 := by
  unfold bytes_per_row usizeMod at *
  norm_num
  omega

lemma bytes_per_row_four_eq {width : Nat} (hw : width + 32 ≤ usizeMod) :
    bytes_per_row width 4 = (width + 31) / 32 * 4 := by
  unfold bytes_per_row usizeMod at *
  norm_num
  omega

lemma bytes_per_row_le (width : Nat) (fmt : GlyphPaddingFormat)
    (hw : width + 32 ≤ usizeMod) :
    bytes_per_row width 1 ≤ sourceRowBytes fmt width := by
  have h8 : width + 8 ≤ usizeMod := by omega
  have h16 : width + 16 ≤ usizeMod := by omega
  cases fmt with
  | Byte => exact Nat.le_refl _
  | Short =>
    show bytes_per_row width 1 ≤ bytes_per_row width 2
    rw [bytes_per_row_one_eq h8, bytes_per_row_two_eq h16]
    omega
  | Int =>
    show bytes_per_row width 1 ≤ bytes_per_row width 4
    rw [bytes_per_row_one_eq h8, bytes_per_row_four_eq hw]
    omega

lemma bytes_per_row_eq_of_no_wrap {width bytes_align : Nat} (ha : 0 < bytes_align)
    (hw : width + bytes_align * 8 ≤ usizeMod) (hb : bytes_align * 8 < usizeMod) :
    bytes_per_row width bytes_align
      = (width + bytes_align * 8 - 1) / (bytes_align * 8) * bytes_align := by
  have hbits : bytes_align * 8 % usizeMod = bytes_align * 8 := Nat.mod_eq_of_lt hb
  have hnum : ((width + bytes_align * 8) % usizeMod + usizeMod - 1) % usizeMod
      = width + bytes_align * 8 - 1 := by
    unfold usizeMod at *
    omega
  have hle : (width + bytes_align * 8 - 1) / (bytes_align * 8) * bytes_align
      ≤ (width + bytes_align * 8 - 1) / 8 := by
    calc (width + bytes_align * 8 - 1) / (bytes_align * 8) * bytes_align
        = (width + bytes_align * 8 - 1) / (8 * bytes_align) * bytes_align := by
          rw [Nat.mul_comm bytes_align 8]
      _ = (width + bytes_align * 8 - 1) / 8 / bytes_align * bytes_align := by
          rw [Nat.div_div_eq_div_mul]
      _ ≤ (width + bytes_align * 8 - 1) / 8 := Nat.div_mul_le_self _ _
  have hsmall : (width + bytes_align * 8 - 1) / (bytes_align * 8) * bytes_align < usizeMod := by
    have h2 : (width + bytes_align * 8 - 1) / 8 ≤ width + bytes_align * 8 - 1 :=
      Nat.div_le_self _ _
    unfold usizeMod at *
    omega
  unfold bytes_per_row
  rw [hbits, hnum, Nat.mod_eq_of_lt hsmall]

lemma readRows_spec (src : List Nat) (std skip : Nat) :
    ∀ (n r pos : Nat) (buf : List Nat),
      (r + n) * std ≤ buf.length →
      pos + n * (std + skip) ≤ src.length →
      ∃ buf2,
        readRows src std skip r n pos buf = some (.ok (buf2, pos + n * (std + skip))) ∧
        buf2.length = buf.length ∧
        (∀ i j, i < n → j < std →
          buf2.getD ((r + i) * std + j) 0 = src.getD (pos + i * (std + skip) + j) 0) ∧
        (∀ k, k < r * std → buf2.getD k 0 = buf.getD k 0) := by
  intro n
  induction n with
  | zero =>
    intro r pos buf _ _
    refine ⟨buf, ?_, rfl, ?_, fun k _ => rfl⟩
    · simp [readRows]
    · intro i j hi _; omega
  | succ n ih =>
    intro r pos buf hbuf hsrc
    have hra : (r + (n + 1)) * std = r * std + (n + 1) * std := by rw [Nat.add_mul]
    have hrb : std ≤ (n + 1) * std := Nat.le_mul_of_pos_left std (Nat.succ_pos n)
    have hif : r * std + std ≤ buf.length := by omega
    have hsm : (n + 1) * (std + skip) = n * (std + skip) + (std + skip) := by
      rw [Nat.succ_mul]
    have hread : readExactAt src pos std = some (listSlice src pos std) := by
      unfold readExactAt
      rw [if_pos (by omega)]
    have hblen : (listSlice src pos std).length = std := readExactAt_length hread
    have hwlen : (writeSlice buf (r * std) (listSlice src pos std)).length = buf.length :=
      writeSlice_length (by omega)
    have hsa : (r + 1 + n) * std = (r + (n + 1)) * std := by
      have : r + 1 + n = r + (n + 1) := by omega
      rw [this]
    obtain ⟨buf2, he, hlen, hmid, hframe⟩ :=
      ih (r + 1) (pos + std + skip) (writeSlice buf (r * std) (listSlice src pos std))
        (by rw [hsa, hwlen]; omega) (by omega)
    have hposeq : pos + std + skip + n * (std + skip) = pos + (n + 1) * (std + skip) := by omega
    refine ⟨buf2, ?_, by rw [hlen, hwlen], ?_, ?_⟩
    · rw [readRows, if_pos hif, hread]
      show readRows src std skip (r + 1) n (pos + std + skip)
          (writeSlice buf (r * std) (listSlice src pos std)) = _
      rw [he, hposeq]
    · intro i j hi hj
      match i with
      | 0 =>
        have hsucc : (r + 1) * std = r * std + std := by rw [Nat.succ_mul]
        have hr0 : (r + 0) * std = r * std := by rw [Nat.add_zero]
        have hfr : buf2.getD ((r + 0) * std + j) 0 =
            (writeSlice buf (r * std) (listSlice src pos std)).getD ((r + 0) * std + j) 0 := by
          apply hframe
          omega
        rw [hfr]
        have hidx : (r + 0) * std + j = r * std + j := by omega
        rw [hidx, writeSlice_getD_mid (by omega) (by omega)]
        rw [readExactAt_getD hread hj]
        congr 1
        omega
      | Nat.succ i' =>
        have h1 := hmid i' j (by omega) hj
        have e1 : (r + 1 + i') * std = (r + (i' + 1)) * std := by
          have : r + 1 + i' = r + (i' + 1) := by omega
          rw [this]
        have e2 : pos + std + skip + i' * (std + skip) + j
            = pos + (i' + 1) * (std + skip) + j := by
          have : (i' + 1) * (std + skip) = i' * (std + skip) + (std + skip) := by
            rw [Nat.succ_mul]
          omega
        rw [e1, e2] at h1
        exact h1
    · intro k hk
      have hsucc : (r + 1) * std = r * std + std := by rw [Nat.succ_mul]
      rw [hframe k (by omega)]
      exact writeSlice_getD_left hk (by omega)

lemma getD_mem {l : List Nat} {i : Nat} (h : i < l.length) : l.getD i 0 ∈ l := by
  rw [List.getD_eq_getElem?_getD, List.getElem?_eq_getElem h]
  exact List.getElem_mem h

lemma get_metrics_ok_bounds {f : PcfFont} {src : List Nat} {gi : Nat} {m : MetricsEntry}
    (hwf : ∀ x ∈ src, x < 256) (hm : get_metrics f src gi = some (.ok m)) :
    (-128 ≤ m.left_side_bearing ∧ m.left_side_bearing ≤ 127) ∧
    (-128 ≤ m.right_side_bearing ∧ m.right_side_bearing ≤ 127) ∧
    (-128 ≤ m.character_ascent ∧ m.character_ascent ≤ 127) ∧
    (-128 ≤ m.character_descent ∧ m.character_descent ≤ 127) := by
  unfold get_metrics at hm
  split at hm
  · unfold get_metrics_compressed at hm
    cases hrd : readExactAt src ((f.metrics_data_location + gi * 5) % 4294967296) 5 with
    | none => simp only [hrd] at hm; simp at hm
    | some b =>
      simp only [hrd] at hm
      have hb5 : b.length = 5 := readExactAt_length hrd
      unfold MetricsEntry.new_from_compressed at hm
      simp only [if_neg (show ¬(b.length < 5) by omega), Option.some.injEq,
        Except.ok.injEq] at hm
      have h0 : b.getD 0 0 < 256 := hwf _ (readExactAt_mem hrd (getD_mem (by omega)))
      have h1 : b.getD 1 0 < 256 := hwf _ (readExactAt_mem hrd (getD_mem (by omega)))
      have h3 : b.getD 3 0 < 256 := hwf _ (readExactAt_mem hrd (getD_mem (by omega)))
      have h4 : b.getD 4 0 < 256 := hwf _ (readExactAt_mem hrd (getD_mem (by omega)))
      subst hm
      refine ⟨⟨?_, ?_⟩, ⟨?_, ?_⟩, ⟨?_, ?_⟩, ⟨?_, ?_⟩⟩ <;> dsimp only <;> omega
  · unfold get_metrics_standard at hm
    cases hrd : readExactAt src ((f.metrics_data_location + gi * 12) % 4294967296) 12 with
    | none => simp only [hrd] at hm; simp at hm
    | some b =>
      simp only [hrd] at hm
      have hb : b.length = 12 := readExactAt_length hrd
      unfold MetricsEntry.new_from_standard at hm
      simp only [if_pos (show b.length < 13 by omega)] at hm
      simp at hm

/-! ### Claim theorems -/

/-- C8 counterexample: `bytes_per_row` does not round every width up.  At
width `2^64 - 8` — exactly the `usize` the source computes in
`read_glyph_raw` for a glyph with bearing difference `-8`, which compressed
metrics permit — the `usize` addition `width + 15` wraps, and
`bytes_per_row` with the Short alignment unit returns 0, far below the
width it was asked to cover. -/
theorem claim_c8_width_wraps_counterexample :
    usizeCast (wrap16 (-8 - 0)) = 18446744073709551608 ∧
    bytes_per_row (usizeCast (wrap16 (-8 - 0))) 2 = 0 ∧
    ¬ usizeCast (wrap16 (-8 - 0)) ≤ 8 * bytes_per_row (usizeCast (wrap16 (-8 - 0))) 2 := by
  refine ⟨by decide, by decide, by decide⟩

/-- C8 (amended): for every positive alignment unit `align` with
`align * 8` below `2^64` and every width for which the `usize` computation
cannot wrap (`width + align * 8 ≤ 2^64`), `bytes_per_row` rounds the width
up to the next multiple of `align * 8` bits and expresses the result in
bytes: `8 * bytes_per_row width align` is the least multiple of `align * 8`
that is at least `width`; in particular `bytes_per_row 9 1 = 2`,
`bytes_per_row 8 4 = 4`, and `bytes_per_row 0 align = 0`. -/
theorem claim_c8_bytes_per_row_rounds_up (width align : Nat) (halign : 0 < align)
    (hbits : align * 8 < usizeMod) (hwidth : width + align * 8 ≤ usizeMod) :
    (width ≤ 8 * bytes_per_row width align ∧
      (align * 8) ∣ 8 * bytes_per_row width align ∧
      ∀ m, width ≤ m → (align * 8) ∣ m → 8 * bytes_per_row width align ≤ m) ∧
    bytes_per_row 9 1 = 2 ∧ bytes_per_row 8 4 = 4 ∧ bytes_per_row 0 align = 0 := by
  have hk : 0 < align * 8 := by omega
  have hbpr : 8 * bytes_per_row width align
      = (width + align * 8 - 1) / (align * 8) * (align * 8) := by
    rw [bytes_per_row_eq_of_no_wrap halign hwidth hbits]
    ring
  constructor
  · refine ⟨?_, ?_, ?_⟩
    · rw [hbpr]
      have hdm := Nat.div_add_mod (width + align * 8 - 1) (align * 8)
      have hmod : (width + align * 8 - 1) % (align * 8) < align * 8 :=
        Nat.mod_lt _ hk
      have hcomm : (width + align * 8 - 1) / (align * 8) * (align * 8)
          = align * 8 * ((width + align * 8 - 1) / (align * 8)) := Nat.mul_comm _ _
      omega
    · rw [hbpr]
      exact Dvd.intro_left _ rfl
    · intro m hm hdvd
      obtain ⟨j, hj⟩ := hdvd
      rw [hbpr, hj]
      have hqj : (width + align * 8 - 1) / (align * 8) ≤ j := by
        rw [Nat.div_le_iff_le_mul_add_pred hk]
        omega
      calc (width + align * 8 - 1) / (align * 8) * (align * 8)
          ≤ j * (align * 8) := Nat.mul_le_mul_right _ hqj
        _ = align * 8 * j := Nat.mul_comm _ _
  · refine ⟨by decide, by decide, ?_⟩
    rw [bytes_per_row_eq_of_no_wrap halign (by omega) hbits]
    have hz : (0 + align * 8 - 1) / (align * 8) = 0 := Nat.div_eq_of_lt (by omega)
    rw [hz, Nat.zero_mul]

/-- C8 witness: the theorem applied at `width = 9`, `align = 4`. -/
theorem claim_c8_bytes_per_row_rounds_up_witness :
    bytes_per_row 9 1 = 2 ∧ bytes_per_row 8 4 = 4 ∧ bytes_per_row 0 4 = 0 :=
  (claim_c8_bytes_per_row_rounds_up 9 4 (by decide) (by decide) (by decide)).2

/-- C9 counterexample: the skip-count subtraction of `read_glyph_raw` can
underflow.  For a glyph whose compressed metrics give the bearing difference
`-8` (e.g. `right_side_bearing` byte `0x78`, `left_side_bearing` byte
`0x80`), the cast to `usize` yields the width `2^64 - 8`; with Short row
padding the source row byte-width wraps to 0 while the canonical row
byte-width is `2^61 - 1`, so `original_row_bytes - standard_row_bytes`
underflows (wrapping in a release build, panicking in a debug build). -/
theorem claim_c9_skip_count_underflow_counterexample :
    usizeCast (wrap16 (-8 - 0)) = 18446744073709551608 ∧
    sourceRowBytes .Short (usizeCast (wrap16 (-8 - 0))) = 0 ∧
    bytes_per_row (usizeCast (wrap16 (-8 - 0))) 1 = 2305843009213693951 ∧
    ¬ bytes_per_row (usizeCast (wrap16 (-8 - 0))) 1
        ≤ sourceRowBytes .Short (usizeCast (wrap16 (-8 - 0))) := by
  refine ⟨by decide, by decide, by decide, by decide⟩

/-- C9 (amended): for every glyph width below the wrap threshold of the row
computation (`width + 32 ≤ 2^64`; every width from successfully resolved —
hence compressed, hence at most 255 — metrics qualifies) and every
row-padding format, the source row byte-width chosen by `read_glyph_raw` is
at least the canonical row byte-width, so the per-row skip count
`original_row_bytes - standard_row_bytes` computed by unsigned subtraction
does not underflow (the truncated subtraction is exact). -/
theorem claim_c9_skip_count_no_underflow (width : Nat) (fmt : GlyphPaddingFormat)
    (hw : width + 32 ≤ usizeMod) :
    bytes_per_row width 1 ≤ sourceRowBytes fmt width ∧
    (sourceRowBytes fmt width - bytes_per_row width 1) + bytes_per_row width 1
      = sourceRowBytes fmt width := by
  have h := bytes_per_row_le width fmt hw
  exact ⟨h, by omega⟩

/-- C9 witness: the amended theorem applied at width 9 with Int padding. -/
theorem claim_c9_skip_count_no_underflow_witness :
    bytes_per_row 9 1 ≤ sourceRowBytes .Int 9 ∧
    (sourceRowBytes .Int 9 - bytes_per_row 9 1) + bytes_per_row 9 1
      = sourceRowBytes .Int 9 :=
  claim_c9_skip_count_no_underflow 9 .Int (by decide)

/-- C7: the baseline offset is `max_ascent` for `Top`, `1 + max_descent` for
`Bottom`, `1 + height / 2 + max_descent` for `Middle` (truncating division),
and `1` for `Alphabetic`, provided the two sums stay inside the 16-bit
range in which the source computes them. -/
theorem claim_c7_baseline_offset (bb : FontBoundingBox)
    (hbot1 : -32768 ≤ 1 + bb.max_descent) (hbot2 : 1 + bb.max_descent < 32768)
    (hmid1 : -32768 ≤ 1 + bb.height.tdiv 2 + bb.max_descent)
    (hmid2 : 1 + bb.height.tdiv 2 + bb.max_descent < 32768) :
    baseline_offset bb .Top = bb.max_ascent ∧
    baseline_offset bb .Bottom = 1 + bb.max_descent ∧
    baseline_offset bb .Middle = 1 + bb.height.tdiv 2 + bb.max_descent ∧
    baseline_offset bb .Alphabetic = 1 := by
  refine ⟨rfl, ?_, ?_, rfl⟩
  · unfold baseline_offset
    exact wrap16_eq_self hbot1 hbot2
  · unfold baseline_offset
    exact wrap16_eq_self hmid1 hmid2

/-- C7 witness: the theorem applied to the bounding box
`(width 8, height 12, max ascent 10, max descent 2)`. -/
theorem claim_c7_baseline_offset_witness :
    baseline_offset ⟨8, 12, 10, 2⟩ .Top = 10 ∧
    baseline_offset ⟨8, 12, 10, 2⟩ .Bottom = 3 ∧
    baseline_offset ⟨8, 12, 10, 2⟩ .Middle = 9 ∧
    baseline_offset ⟨8, 12, 10, 2⟩ .Alphabetic = 1 :=
  claim_c7_baseline_offset ⟨8, 12, 10, 2⟩ (by decide) (by decide) (by decide) (by decide)

/-- C2: contrary to the claim, when the metrics-compression flag is false and
the 12-byte entry at `metrics_data_location + glyph_index * 12` is read
successfully, the decode does index past the 12-byte buffer: creating the
inclusive slice `data[10..=12]` requires 13 bytes, so `get_metrics` panics
(`none`) instead of yielding the decoded fields. -/
theorem claim_c2_standard_metrics_decode_panics (f : PcfFont) (src : List Nat)
    (glyph_index : Nat) (b : List Nat)
    (hcomp : f.metrics_compressed = false)
    (hread : readExactAt src ((f.metrics_data_location + glyph_index * 12) % 4294967296) 12
      = some b) :
    get_metrics f src glyph_index = none ∧ MetricsEntry.new_from_standard b = none := by
  have hb : b.length = 12 := readExactAt_length hread
  have hns : MetricsEntry.new_from_standard b = none := by
    unfold MetricsEntry.new_from_standard
    rw [if_pos (by omega)]
  refine ⟨?_, hns⟩
  unfold get_metrics
  simp only [hcomp, Bool.false_eq_true, if_false]
  unfold get_metrics_standard
  simp only [hread, hns]

/-- C2 witness: the theorem applied to the test container with the
compression flag cleared, at glyph index 0. -/
theorem claim_c2_standard_metrics_decode_panics_witness :
    get_metrics { testFontC1Handle with metrics_compressed := false } testFontC1 0 = none ∧
    MetricsEntry.new_from_standard (listSlice testFontC1 102 12) = none :=
  claim_c2_standard_metrics_decode_panics
    { testFontC1Handle with metrics_compressed := false } testFontC1 0
    (listSlice testFontC1 102 12) rfl (by decide)

/-- C3: glyph lookup fails with `NotFound` exactly when the code point's two
8-bit components fall outside the stored encoding domain or the big-endian
16-bit index stored at `encoded_glyph_indices_location + row-major-index * 2`
is the sentinel `0xFFFF`; for every in-domain code point whose stored index
is not `0xFFFF` the lookup returns that stored index (assuming the two index
bytes can be read). -/
theorem claim_c3_glyph_lookup (f : PcfFont) (src : List Nat) (code_point : Nat) (b : List Nat)
    (hloc : f.encoded_glyph_indices_location + rowMajorIndex f code_point * 2 < 4294967296)
    (hread : readExactAt src
      (f.encoded_glyph_indices_location + rowMajorIndex f code_point * 2) 2 = some b) :
    (get_glyph_index f src code_point = .error .NotFound ↔
      (¬inEncodingDomain f code_point ∨ u16_from_be_bytes b = 0xFFFF)) ∧
    (inEncodingDomain f code_point → u16_from_be_bytes b ≠ 0xFFFF →
      get_glyph_index f src code_point = .ok (u16_from_be_bytes b)) := by
  have hmod : (f.encoded_glyph_indices_location + rowMajorIndex f code_point * 2) % 4294967296
      = f.encoded_glyph_indices_location + rowMajorIndex f code_point * 2 :=
    Nat.mod_eq_of_lt hloc
  by_cases hd : inEncodingDomain f code_point
  · have hcond : ¬(¬(f.min_byte1 ≤ enc1 code_point ∧ enc1 code_point ≤ f.max_byte1) ∨
        ¬(f.min_char_or_byte2 ≤ enc2 code_point ∧
          enc2 code_point ≤ f.max_char_or_byte2)) := by
      unfold inEncodingDomain at hd
      tauto
    have hgi : get_glyph_index f src code_point =
        (if u16_from_be_bytes b = 0xFFFF then .error .NotFound
          else .ok (u16_from_be_bytes b)) := by
      unfold get_glyph_index
      rw [if_neg hcond, hmod]
      simp only [hread]
    by_cases hs : u16_from_be_bytes b = 0xFFFF
    · rw [hgi, if_pos hs]
      exact ⟨Iff.intro (fun _ => Or.inr hs) (fun _ => rfl), fun _ hne => absurd hs hne⟩
    · rw [hgi, if_neg hs]
      refine ⟨Iff.intro (fun h => by cases h) (fun h => ?_), fun _ _ => rfl⟩
      rcases h with h | h
      · exact absurd hd h
      · exact absurd h hs
  · have hcond : ¬(f.min_byte1 ≤ enc1 code_point ∧ enc1 code_point ≤ f.max_byte1) ∨
        ¬(f.min_char_or_byte2 ≤ enc2 code_point ∧
          enc2 code_point ≤ f.max_char_or_byte2) := by
      unfold inEncodingDomain at hd
      tauto
    have hgi : get_glyph_index f src code_point = .error .NotFound := by
      unfold get_glyph_index
      rw [if_pos hcond]
    rw [hgi]
    exact ⟨Iff.intro (fun _ => Or.inl hd) (fun _ => rfl), fun h => absurd h hd⟩

/-- C3 witness: lookup of the in-domain code point `0x41` in the test
container, whose stored index is 0. -/
theorem claim_c3_glyph_lookup_witness :
    get_glyph_index testFontC1Handle testFontC1 0x41 = .ok 0 :=
  (claim_c3_glyph_lookup testFontC1Handle testFontC1 0x41 (listSlice testFontC1 121 2)
    (by decide) (by decide)).2 (by decide) (by decide)

/-- C4: a byte source whose first 4 bytes differ from the magic signature
loads to the `UnsupportedFormat` error; a container that parses up to the
metrics table but whose metrics count differs from the bitmap table's glyph
count loads to the `CorruptedData` error; and a failed load never also
returns a font handle. -/
theorem claim_c4_load_failures (d : List Nat) (t0 t1 t2 t3 : TableTocEntry)
    (pad : GlyphPaddingFormat) (cm : Bool) (gc mc : Nat) :
    (4 ≤ d.length → d.take 4 ≠ magicBytes →
      load_pcf_font d = some (.error .UnsupportedFormat)) ∧
    (loadTocChecked d = .ok (t0, t1, t2, t3) → bitmapPadFormat t0 = .ok pad →
      readGlyphCountStage d t0 = .ok gc → readMetricsCountStage d t1 = .ok (cm, mc) →
      mc ≠ gc → load_pcf_font d = some (.error .CorruptedData)) ∧
    (∀ e font, load_pcf_font d = some (.error e) → load_pcf_font d ≠ some (.ok font)) := by
  refine ⟨?_, ?_, ?_⟩
  · intro h4 hm
    have hr : readExactAt d 0 4 = some (d.take 4) := by
      unfold readExactAt listSlice
      rw [if_pos (by omega), List.drop_zero]
    have htoc : loadTocChecked d = .error .UnsupportedFormat := by
      unfold loadTocChecked
      simp only [hr]
      rw [if_pos hm]
    unfold load_pcf_font
    simp only [htoc]
  · intro h1 h2 h3 h4 hne
    unfold load_pcf_font
    simp only [h1, h2, h3, h4]
    rw [if_pos hne]
  · intro e font he
    rw [he]
    simp

/-- C4 witness: the theorem applied to a bad-magic source and to the test
container with metrics count 2 against glyph count 1. -/
theorem claim_c4_load_failures_witness :
    load_pcf_font testBadMagic = some (.error .UnsupportedFormat) ∧
    load_pcf_font testFontBadCount = some (.error .CorruptedData) := by
  constructor
  · exact (claim_c4_load_failures testBadMagic ⟨0, 0, 0⟩ ⟨0, 0, 0⟩ ⟨0, 0, 0⟩ ⟨0, 0, 0⟩
      .Byte true 0 0).1 (by decide) (by decide)
  · exact (claim_c4_load_failures testFontBadCount ⟨12, 0, 72⟩ ⟨268, 0, 96⟩ ⟨12, 0, 107⟩
      ⟨12, 0, 123⟩ .Byte true 1 2).2.1 (by decide) (by decide) (by decide) (by decide)
      (by decide)

/-- C1: contrary to the claim, after `load_pcf_font` succeeds the handle's
`default_char` field holds the big-endian 16-bit field at byte offset 6
after the skipped format field of the encoding table (the `max_byte1`
field, reread), not the default-character field at byte offset 8: on the
test container the stored default-character code point is `0x3F` but the
loaded handle carries `max_byte1` (0). -/
theorem claim_c1_default_char_misread :
    load_pcf_font testFontC1 = some (.ok testFontC1Handle) ∧
    u16_from_be_bytes_ref (listSlice testFontC1 119 2) = 0x3F ∧
    testFontC1Handle.default_char = u16_from_be_bytes_ref (listSlice testFontC1 117 2) ∧
    testFontC1Handle.default_char ≠ 0x3F := by
  refine ⟨by decide, by decide, by decide, by decide⟩

lemma drawCharsLoop_y (F : FontHandleModel) : ∀ (chars : List Nat) (pos : Point),
    ((drawCharsLoop F chars pos).1).y = pos.y := by
  intro chars
  induction chars with
  | nil => intro pos; rfl
  | cons c rest ih =>
    intro pos
    rw [drawCharsLoop]
    cases hg : F.read_glyph_raw c with
    | ok p =>
      obtain ⟨data, m⟩ := p
      exact ih ⟨pos.x + m.character_width, pos.y⟩
    | error e =>
      cases e with
      | NotFound =>
        cases hf : F.read_glyph_raw F.default_char with
        | ok p =>
          obtain ⟨data, m⟩ := p
          exact ih ⟨pos.x + m.character_width, pos.y⟩
        | error e2 => exact ih pos
      | UnsupportedFormat => exact ih pos
      | CorruptedData => exact ih pos
      | Io => exact ih pos
      | Other => exact ih pos

/-- C6: in the character loop of `draw_string_binary`, a `NotFound` for a
character triggers exactly one fallback attempt with the handle's default
character; if the fallback fails with any error, or the character's decode
fails with any error other than `NotFound`, the character contributes zero
horizontal advance and draws nothing, and the remaining characters are
processed exactly as if the failed character were absent. -/
theorem claim_c6_char_failures_contained (F : FontHandleModel) (c : Nat) (cs : List Nat)
    (pos : Point) :
    (∀ e, F.read_glyph_raw c = .error e → e ≠ .NotFound →
      drawCharsLoop F (c :: cs) pos = drawCharsLoop F cs pos) ∧
    (∀ e, F.read_glyph_raw c = .error .NotFound →
      F.read_glyph_raw F.default_char = .error e →
      drawCharsLoop F (c :: cs) pos = drawCharsLoop F cs pos) ∧
    (∀ data m, F.read_glyph_raw c = .error .NotFound →
      F.read_glyph_raw F.default_char = .ok (data, m) →
      drawCharsLoop F (c :: cs) pos =
        ((drawCharsLoop F cs ⟨pos.x + m.character_width, pos.y⟩).1,
          draw_single_char_binary data m pos ++
            (drawCharsLoop F cs ⟨pos.x + m.character_width, pos.y⟩).2)) := by
  refine ⟨?_, ?_, ?_⟩
  · intro e he hne
    cases e with
    | NotFound => exact absurd rfl hne
    | UnsupportedFormat => rw [drawCharsLoop, he]
    | CorruptedData => rw [drawCharsLoop, he]
    | Io => rw [drawCharsLoop, he]
    | Other => rw [drawCharsLoop, he]
  · intro e he hd
    rw [drawCharsLoop, he, hd]
  · intro data m he hd
    rw [drawCharsLoop, he, hd]

/-- The concrete font handle used by the C6 witness: code point 65 decodes
with an `Io` failure, 66 is absent, 70 (the default character) resolves. -/
def c6Font : FontHandleModel :=
  { bounding_box := ⟨8, 12, 10, 2⟩
    default_char := 70
    read_glyph_raw := fun n =>
      if n = 65 then .error .Io
      else if n = 66 then .error .NotFound
      else if n = 70 then .ok ([1], ⟨0, 8, 8, 8, 0, 0⟩)
      else .error .NotFound
    get_glyph_metrics := fun _ => .error .NotFound }

/-- The C6 witness handle with an unresolvable default character. -/
def c6FontNoDefault : FontHandleModel :=
  { c6Font with default_char := 99 }

/-- C6 witness: the theorem applied to the three failure scenarios (non-`NotFound`
decode error, failed fallback, successful fallback). -/
theorem claim_c6_char_failures_contained_witness :
    drawCharsLoop c6Font [65] ⟨0, 0⟩ = drawCharsLoop c6Font [] ⟨0, 0⟩ ∧
    drawCharsLoop c6FontNoDefault [66] ⟨0, 0⟩ = drawCharsLoop c6FontNoDefault [] ⟨0, 0⟩ ∧
    drawCharsLoop c6Font [66] ⟨0, 0⟩ =
      ((drawCharsLoop c6Font [] ⟨0 + (8 : Int), 0⟩).1,
        draw_single_char_binary [1] ⟨0, 8, 8, 8, 0, 0⟩ ⟨0, 0⟩ ++
          (drawCharsLoop c6Font [] ⟨0 + (8 : Int), 0⟩).2) :=
  ⟨(claim_c6_char_failures_contained c6Font 65 [] ⟨0, 0⟩).1 .Io rfl (by decide),
    (claim_c6_char_failures_contained c6FontNoDefault 66 [] ⟨0, 0⟩).2.1 .NotFound rfl rfl,
    (claim_c6_char_failures_contained c6Font 66 [] ⟨0, 0⟩).2.2 [1] ⟨0, 8, 8, 8, 0, 0⟩ rfl rfl⟩

/-- C10: both `draw_string` and `draw_whitespace` return a point with the same
y-coordinate as the given anchor position: the baseline offset added at the
start is subtracted back out and the pen advances only along the x-axis. -/
theorem claim_c10_returned_y_equals_anchor {C : Type} (style : PcfFontStyle C)
    (chars : List Nat) (pos : Point) (baseline : Baseline) (width : Nat) :
    ((draw_string style chars pos baseline).1).y = pos.y ∧
    ((draw_whitespace style width pos baseline).1).y = pos.y := by
  constructor
  · have hb : ∀ (p : Point), ((draw_string_binary style chars p).1).y = p.y := by
      intro p
      unfold draw_string_binary
      exact drawCharsLoop_y style.font chars p
    unfold draw_string
    cases style.text_color <;> cases style.background_color <;>
      simp only [] <;> (try rw [hb]) <;> (try dsimp only) <;> omega
  · unfold draw_whitespace
    by_cases hw : width ≠ 0
    · rw [if_pos hw]
      dsimp only
      omega
    · rw [if_neg hw]

/-- C5: for every successfully resolved glyph whose width
`right_side_bearing - left_side_bearing` and height
`character_ascent + character_descent` are non-negative, `read_glyph_raw`
reads `glyph_height` rows from the byte source starting at
`bitmap_data_location + bitmap_offset`, writing exactly
`bytes_per_row glyph_width 1` bytes per row into consecutive positions of
the caller's buffer and skipping the source-row padding between rows
(stride `sourceRowBytes`), and returns
`(glyph_height * bytes_per_row glyph_width 1, glyph_width)`. -/
theorem claim_c5_read_glyph_raw_rows (f : PcfFont) (src : List Nat) (code_point : Nat)
    (buf : List Nat) (gi off : Nat) (m : MetricsEntry)
    (hwf : ∀ x ∈ src, x < 256)
    (hgi : get_glyph_index f src code_point = .ok gi)
    (hoff : get_glyph_bitmap_offset f src gi = .ok off)
    (hm : get_metrics f src gi = some (.ok m))
    (hw : 0 ≤ m.right_side_bearing - m.left_side_bearing)
    (hh : 0 ≤ m.character_ascent + m.character_descent)
    (hstart : f.bitmap_data_location + off < 4294967296)
    (hbuf : (m.character_ascent + m.character_descent).toNat *
      bytes_per_row (m.right_side_bearing - m.left_side_bearing).toNat 1 ≤ buf.length)
    (hsrc : f.bitmap_data_location + off +
      (m.character_ascent + m.character_descent).toNat *
        sourceRowBytes f.glyph_row_padding_format
          (m.right_side_bearing - m.left_side_bearing).toNat ≤ src.length) :
    ∃ buf2,
      read_glyph_raw f src code_point buf =
        some (.ok (((m.character_ascent + m.character_descent).toNat *
            bytes_per_row (m.right_side_bearing - m.left_side_bearing).toNat 1,
          (m.right_side_bearing - m.left_side_bearing).toNat), buf2)) ∧
      buf2.length = buf.length ∧
      ∀ r j, r < (m.character_ascent + m.character_descent).toNat →
        j < bytes_per_row (m.right_side_bearing - m.left_side_bearing).toNat 1 →
        buf2.getD
            (r * bytes_per_row (m.right_side_bearing - m.left_side_bearing).toNat 1 + j) 0
          = src.getD (f.bitmap_data_location + off +
              r * sourceRowBytes f.glyph_row_padding_format
                (m.right_side_bearing - m.left_side_bearing).toNat + j) 0 := by
  obtain ⟨hb1, hb2, hb3, hb4⟩ := get_metrics_ok_bounds hwf hm
  have hgw : usizeCast (wrap16 (m.right_side_bearing - m.left_side_bearing))
      = (m.right_side_bearing - m.left_side_bearing).toNat := by
    rw [wrap16_eq_self (by omega) (by omega), usizeCast_eq_toNat hw (by omega)]
  have hgh : usizeCast (wrap16 (m.character_ascent + m.character_descent))
      = (m.character_ascent + m.character_descent).toNat := by
    rw [wrap16_eq_self (by omega) (by omega), usizeCast_eq_toNat hh (by omega)]
  have hgwb : (m.right_side_bearing - m.left_side_bearing).toNat ≤ 255 := by omega
  have hle : bytes_per_row (m.right_side_bearing - m.left_side_bearing).toNat 1
      ≤ sourceRowBytes f.glyph_row_padding_format
          (m.right_side_bearing - m.left_side_bearing).toNat :=
    bytes_per_row_le _ _ (by unfold usizeMod; omega)
  have hskip : bytes_per_row (m.right_side_bearing - m.left_side_bearing).toNat 1 +
      (sourceRowBytes f.glyph_row_padding_format
          (m.right_side_bearing - m.left_side_bearing).toNat -
        bytes_per_row (m.right_side_bearing - m.left_side_bearing).toNat 1)
      = sourceRowBytes f.glyph_row_padding_format
          (m.right_side_bearing - m.left_side_bearing).toNat := by omega
  have hmod : (f.bitmap_data_location + off) % 4294967296 = f.bitmap_data_location + off :=
    Nat.mod_eq_of_lt hstart
  obtain ⟨buf2, hrr, hlen, hmid, _⟩ :=
    readRows_spec src (bytes_per_row (m.right_side_bearing - m.left_side_bearing).toNat 1)
      (sourceRowBytes f.glyph_row_padding_format
          (m.right_side_bearing - m.left_side_bearing).toNat -
        bytes_per_row (m.right_side_bearing - m.left_side_bearing).toNat 1)
      (m.character_ascent + m.character_descent).toNat 0 (f.bitmap_data_location + off) buf
      (by rw [Nat.zero_add]; exact hbuf) (by rw [hskip]; exact hsrc)
  refine ⟨buf2, ?_, hlen, ?_⟩
  · unfold read_glyph_raw
    simp only [hgi, hoff, hm]
    rw [hgw, hgh, hmod, hrr]
  · intro r j hr hj
    have h := hmid r j hr hj
    rw [Nat.zero_add, hskip] at h
    exact h

/-- C5 witness: the theorem applied to the glyph for code point 65 in the
test container (an 8×8 glyph with byte row padding). -/
theorem claim_c5_read_glyph_raw_rows_witness :
    ∃ buf2,
      read_glyph_raw testFontC1Handle testFontC1 65 (List.replicate 8 0)
        = some (.ok ((8, 8), buf2)) ∧
      buf2.length = 8 ∧
      ∀ r j, r < 8 → j < 1 →
        buf2.getD (r * 1 + j) 0 = testFontC1.getD (100 + r * 1 + j) 0 :=
  claim_c5_read_glyph_raw_rows testFontC1Handle testFontC1 65 (List.replicate 8 0) 0 0
    ⟨0, 8, 8, 8, 0, 0⟩ (by decide) (by decide) (by decide) (by decide) (by decide)
    (by decide) (by decide) (by decide) (by decide)

end EmbeddedPcf
